import Mathlib

/-!
Verification of the redaction-process repository.

Shallow embedding of the two source files:
* `func_to_import.py`   — text cleanup (`remove_undesired_patterns`), pattern
  preparation and page redaction (`redact_pdf_content`), OCR text extraction
  (`extract_text_from_pdf`);
* `process_to_upload.py` — the ZIP workflow driver (`process_zip_file_workflow`).

Text is modelled as `List Char`; a document is a list of pages; the PDF,
filesystem and OCR libraries are modelled by explicit data passed to the
embedded functions (existence flags, per-pattern search results, per-page
OCR outcomes).
-/

namespace Redaction

/-! ## Text-level cleanup: `remove_undesired_patterns` -/

/-- Word characters for the regex `\b` boundary (ASCII `\w`: alphanumeric or
underscore), as used by the `\buptodate\b`-style substitution in
`remove_undesired_patterns`. -/
def isWordChar (c : Char) : Bool := c.isAlphanum || c == '_'

/-- One character class of the source regex
`\b[Uu][Pp][Tt][Oo][Dd][Aa][Tt][Ee]\b`: the character is either the lower- or
the upper-case variant. -/
def charClass2 (c lo hi : Char) : Bool := c == lo || c == hi

/-- The body `[Uu][Pp][Tt][Oo][Dd][Aa][Tt][Ee]` of the substitution regex:
exactly eight characters, each from the corresponding class. -/
def udClassMatch : List Char → Bool
  | [c1, c2, c3, c4, c5, c6, c7, c8] =>
    charClass2 c1 'u' 'U' && charClass2 c2 'p' 'P' && charClass2 c3 't' 'T' &&
    charClass2 c4 'o' 'O' && charClass2 c5 'd' 'D' && charClass2 c6 'a' 'A' &&
    charClass2 c7 't' 'T' && charClass2 c8 'e' 'E'
  | _ => false

/-- The `\b` boundary after the token: end of input or a non-word character. -/
def nextNonWord : List Char → Bool
  | [] => true
  | c :: _ => !isWordChar c

/-- Left-to-right scan of `re.sub(r'\b[Uu]...[Ee]\b', '', line)`: at each
position, if the previous character was not a word character (the leading
`\b`), the next eight characters match the class sequence, and the following
position satisfies the trailing `\b`, the match is dropped (empty replacement)
and scanning resumes after it; otherwise the character is kept.  `fuel` bounds
the recursion and is always at least the input length. -/
def subScanF : Nat → Bool → List Char → List Char
  | 0, _, l => l
  | _ + 1, _, [] => []
  | fuel + 1, prevw, c :: cs =>
    if !prevw && udClassMatch (List.take 8 (c :: cs)) && nextNonWord (List.drop 8 (c :: cs)) then
      subScanF fuel true (List.drop 8 (c :: cs))
    else
      c :: subScanF fuel (isWordChar c) cs

/-- The whole-line substitution `re.sub(r'\b[Uu][Pp][Tt][Oo][Dd][Aa][Tt][Ee]\b', '', line)`
from `remove_undesired_patterns`. -/
def subUD (l : List Char) : List Char := subScanF l.length false l

/-- Whitespace characters for the `\s` class of the marker regex. -/
def isSpaceWS (c : Char) : Bool :=
  c == ' ' || c == '\t' || c == '\n' || c == '\r' || c == '\x0b' || c == '\x0c'

/-- Does the marker regex `Copyright ©\s*\d{4}` (IGNORECASE) match at the head
of the character list?  The literal part is compared case-insensitively, then
whitespace is consumed greedily, then four digits are required. -/
def matchesCopyrightAt (l : List Char) : Bool :=
  let pat := "copyright ©".toList
  ((l.take pat.length).map Char.toLower == pat) &&
  (let rest := (l.drop pat.length).dropWhile isSpaceWS
   (rest.take 4).all Char.isDigit && decide (4 ≤ rest.length))

/-- The `re.search(r"Copyright ©\s*\d{4}", line, re.IGNORECASE)` test of
`remove_undesired_patterns`: the marker matches at some position of the line. -/
def markerB (line : List Char) : Bool := line.tails.any matchesCopyrightAt

/-- Python `text.split('\n')`: split into lines at every newline, keeping
empty pieces. -/
def splitLines : List Char → List (List Char)
  | [] => [[]]
  | c :: cs =>
    let r := splitLines cs
    if c == '\n' then [] :: r else (c :: r.headI) :: r.tail

/-- The scanning loop of `remove_undesired_patterns`.  `prev` is the raw line
just before the current position (`lines[i-1]`, `none` at the start), `out`
the emitted output lines.  On a marker line: pop the last emitted line when it
equals the preceding raw line, then `i += 2` inside the branch together with
the loop's `i += 1` advances past the next *two* lines; the new `prev` is the
second of the skipped lines.  On any other line the `uptodate` substitution is
applied and the line is emitted. -/
def rupGo (prev : Option (List Char)) (out : List (List Char)) :
    List (List Char) → List (List Char)
  | [] => out
  | l :: rest =>
    if markerB l then
      let out' := if !out.isEmpty && (prev == out.getLast?) then out.dropLast else out
      match rest with
      | [] => out'
      | [_] => out'
      | _ :: b :: r => rupGo (some b) out' r
    else
      rupGo (some l) (out ++ [subUD l]) rest

/-- `remove_undesired_patterns(text)` from `func_to_import.py`: split into
lines, run the scanning loop, re-join with newlines. -/
def remove_undesired_patterns (text : List Char) : List Char :=
  List.intercalate ['\n'] (rupGo none [] (splitLines text))

/-! ### Declarative whole-word-removal characterisation (from the spec) -/

/-- Word-character test on an optional character (`none` = outside the text,
hence not a word character). -/
def isWordOpt : Option Char → Bool
  | none => false
  | some c => isWordChar c

/-- Modelled from the spec: a whole-word occurrence of the token `uptodate`
(any casing) starts at position `j` of the text — boundary before, eight
class characters, boundary after. -/
def udMatchAt (full : List Char) (j : Nat) : Bool :=
  (decide (j = 0) || !isWordOpt full[j - 1]?) &&
  udClassMatch (List.take 8 (List.drop j full)) &&
  nextNonWord (List.drop (j + 8) full)

/-- Position `i` lies inside some whole-word occurrence of the token. -/
def udCovered (full : List Char) (i : Nat) : Bool :=
  (List.range full.length).any (fun j => udMatchAt full j && decide (j ≤ i) && decide (i < j + 8))

/-- Modelled from the spec: the line with every whole-word occurrence of the
token replaced by the empty string — i.e. exactly the characters not covered
by an occurrence, in order. -/
def wholeWordStripSpec (full : List Char) : List Char :=
  (List.range full.length).filterMap (fun i => if udCovered full i then none else full[i]?)

/-- The previous-character word status seen by the scan when it reaches
absolute position `k` of the text. -/
def prevWordAt (full : List Char) : Nat → Bool
  | 0 => false
  | j + 1 => isWordOpt full[j]?

/-! ## Pattern preparation inside `redact_pdf_content` -/

/-- The regex flags relevant to the preparation step (`re.IGNORECASE`,
`re.DOTALL`, `re.MULTILINE`, `re.UNICODE`).  Python attaches `re.UNICODE`
to every pattern compiled from a `str`, so real compiled entries always carry
`unicode := true`. -/
structure RegexFlags where
  ignorecase : Bool := false
  dotall : Bool := false
  multiline : Bool := false
  unicode : Bool := false
deriving DecidableEq, Repr

/-- One element of `words_and_patterns_to_redact`: a literal string, a
compiled regular expression (pattern text plus its flags), or an entry of any
other type (skipped with a warning by the source). -/
inductive RedactEntry where
  | str (s : String)
  | pat (pattern : String) (flags : RegexFlags)
  | invalid
deriving DecidableEq, Repr

/-- The characters `re.escape` prefixes with a backslash:
`()[]{}?*+-|^$\.&~#` and whitespace. -/
def regexSpecialChars : List Char := "()[]\x7b\x7d?*+-|^$\\.&~# \t\n\r\x0b\x0c".toList

/-- Is the character special for `re.escape`? -/
def isRegexSpecial (c : Char) : Bool := regexSpecialChars.contains c

/-- `re.escape(item)`: every special character gets a leading backslash. -/
def reEscape (s : String) : String :=
  String.mk (s.toList.flatMap fun c => if isRegexSpecial c then ['\\', c] else [c])

/-- The inline flag letters emitted for a flag set, in source order
(`i`, `s`, `m`, `u`). -/
def flagStr (f : RegexFlags) : String :=
  (if f.ignorecase then "i" else "") ++ (if f.dotall then "s" else "") ++
  (if f.multiline then "m" else "") ++ (if f.unicode then "u" else "")

/-- Embed the flags into the pattern string: `"(?<flags>)<pattern>"`, or the
bare pattern when no flag is set. -/
def emitPattern (f : RegexFlags) (p : String) : String :=
  if (flagStr f).isEmpty then p else "(?" ++ flagStr f ++ ")" ++ p

/-- The per-entry body of the pattern-preparation loop of
`redact_pdf_content`: a literal is escaped and gets `IGNORECASE` exactly when
the global flag asks for case-insensitivity; a compiled pattern keeps its
text, gets `IGNORECASE` from the global flag (the source's extra
`if not case_sensitive and not (item.flags & re.IGNORECASE)` step is kept,
though redundant), and inherits only `DOTALL`, `MULTILINE` and `UNICODE` from
its own flags; anything else yields no pattern. -/
def prepareOne (case_sensitive : Bool) : RedactEntry → Option String
  | .str s =>
    let currentFlags : RegexFlags :=
      if case_sensitive then {} else { ignorecase := true }
    some (emitPattern currentFlags (reEscape s))
  | .pat p fl =>
    let currentFlags : RegexFlags :=
      if case_sensitive then {} else { ignorecase := true }
    let currentFlags :=
      if !case_sensitive && !fl.ignorecase then { currentFlags with ignorecase := true }
      else currentFlags
    let currentFlags :=
      { currentFlags with
        dotall := currentFlags.dotall || fl.dotall,
        multiline := currentFlags.multiline || fl.multiline,
        unicode := currentFlags.unicode || fl.unicode }
    some (emitPattern currentFlags p)
  | .invalid => none

/-- The pattern-preparation loop: `search_patterns` is built by appending the
prepared pattern of each entry in order, skipping invalid entries. -/
def preparePatterns (case_sensitive : Bool) (items : List RedactEntry) : List String :=
  items.foldl
    (fun acc item =>
      match prepareOne case_sensitive item with
      | some p => acc ++ [p]
      | none => acc)
    []

/-- Read a pattern string as a regex literal: a backslash-escaped character
stands for itself, a plain non-special character stands for itself, and a bare
special character means the pattern is not a plain literal (`none`).  Used to
state that an escaped literal matches the original text verbatim. -/
def unescapeLit : List Char → Option (List Char)
  | [] => some []
  | c :: rest =>
    if c == '\\' then
      match rest with
      | [] => none
      | d :: rest' => (unescapeLit rest').map (d :: ·)
    else if isRegexSpecial c then none
    else (unescapeLit rest).map (c :: ·)

/-- Does the generated pattern string carry an inline flag group at its head
whose letters include `i`? -/
def hasInlineI (s : String) : Bool :=
  s.toList.take 2 == ['(', '?'] &&
  ((s.toList.drop 2).takeWhile (fun c => c != ')')).contains 'i'

/-- A compiled-pattern entry as Python would actually produce it: patterns
compiled from `str` always carry `re.UNICODE`. -/
def entryWellFormed : RedactEntry → Bool
  | .pat _ fl => fl.unicode
  | _ => true

/-- The module-level `REDACTION_PATTERNS` list of `func_to_import.py`. -/
def REDACTION_PATTERNS : List RedactEntry := [
  .str "Ref",
  .str "Use of UpToDate is subject to the Terms of Use",
  .str "2025© UpToDate, Inc. and its affiliates and/or licensors. All Rights Reserved",
  .str "show table",
  .str "Contributor Disclosures",
  .str "For abbreviations, symbols, and age group definitions",
  .str "Use of UpToDate is subject to the Terms of Us\"",
  .pat "\\b\\([A-Za-z]+\\s+\\d\x7b4\x7d(?:[,;]\\s*[A-Za-z]+\\s+\\d\x7b4\x7d)*\\)\\b"
    { ignorecase := true, unicode := true },
  .pat "AUTHORS:.*?(?:\\n|$)" { ignorecase := true, unicode := true },
  .pat "SECTION EDITOR:.*?(?:\\n|$)" { ignorecase := true, unicode := true },
  .pat "DEPUTY EDITOR:.*?(?:\\n|$)" { ignorecase := true, unicode := true },
  .pat "CONTRIBUTOR DISCLOSURES.*?(?:\\n|$)" { ignorecase := true, unicode := true },
  .pat "INTRODUCTION.*?(?:\\n|$)" { ignorecase := true, unicode := true },
  .pat "All topics are updated as new evidence becomes available and our peer review process is complete"
    { ignorecase := true, unicode := true },
  .pat "This topic last updated: (?:Jan(?:uary)?|Feb(?:ruary)?|Mar(?:ch)?|Apr(?:il)?|May|Jun(?:e)?|Jul(?:y)?|Aug(?:ust)?|Sep(?:tember)?|Oct(?:ober)?|Nov(?:ember)?|Dec(?:ember)?)\\s+\\d\x7b1,2\x7d, \\d\x7b4\x7d\\."
    { ignorecase := true, unicode := true },
  .pat "Literature review current through:.*?(?:\\n|$)" { ignorecase := true, unicode := true },
  .pat "Topic \\d+ Version \\d+\\.\\d+" { ignorecase := true, unicode := true },
  .pat "ACKNOWLEDGMENT.*?prior versions of this topic review\\."
    { ignorecase := true, dotall := true, unicode := true },
  .pat "UpToDate is a registered trademark of UpToDate, Inc. All rights reserved."
    { ignorecase := true, unicode := true }]

/-- The module-level flag `IS_CASE_SENSITIVE_PDF_REDACTION = False`. -/
def IS_CASE_SENSITIVE_PDF_REDACTION : Bool := false

/-! ## Page redaction inside `redact_pdf_content` -/

/-- A `fitz.Rect`: page coordinates `(x0, y0, x1, y1)`, `y` growing downwards. -/
structure PdfRect where
  x0 : ℚ
  y0 : ℚ
  x1 : ℚ
  y1 : ℚ
deriving DecidableEq, Repr

/-- `fitz.Rect.intersects`: the two rectangles share a rectangle of positive
width and height (an empty or degenerate overlap does not count). -/
def PdfRect.intersectsB (a b : PdfRect) : Bool :=
  decide (max a.x0 b.x0 < min a.x1 b.x1) && decide (max a.y0 b.y0 < min a.y1 b.y1)

/-- The fixed header region: full width, top 70 units. -/
def headerRect (w : ℚ) : PdfRect := ⟨0, 0, w, 70⟩

/-- The fixed footer region: full width, bottom 70 units. -/
def footerRect (w h : ℚ) : PdfRect := ⟨0, h - 70, w, h⟩

/-- One page as seen by `redact_pdf_content`: its dimensions and, for each
search-pattern string, the list of match rectangles `page.search_for` returns
for it. -/
structure PageData where
  width : ℚ
  height : ℚ
  searchHits : String → List PdfRect

/-- All match rectangles collected on the page (`text_instances_found`):
the concatenation, in pattern order, of each pattern's hits. -/
def collectedRects (pg : PageData) (patterns : List String) : List PdfRect :=
  (patterns.map pg.searchHits).flatten

/-- The sort key `lambda r: (r.y0, r.x0)` as a boolean linear order. -/
def rectLe (a b : PdfRect) : Bool :=
  decide (a.y0 < b.y0) || (decide (a.y0 = b.y0) && decide (a.x0 ≤ b.x0))

/-- The per-page body of the redaction loop: black-fill redactions are added
for the header and the footer, then every collected match rectangle is taken
in `(y0, x0)`-sorted order and receives a redaction unless it intersects the
header or footer region.  Returns the redaction rectangles of the page in the
order they are added, together with the page's contribution to
`total_redactions`. -/
def processPage (patterns : List String) (pg : PageData) : List PdfRect × Nat :=
  let hdr := headerRect pg.width
  let ftr := footerRect pg.width pg.height
  let sortedRects := (collectedRects pg patterns).mergeSort rectLe
  sortedRects.foldl
    (fun acc r =>
      if !(hdr.intersectsB r) && !(ftr.intersectsB r) then (acc.1 ++ [r], acc.2 + 1)
      else acc)
    ([hdr, ftr], 2)

/-- The observable outcome of `redact_pdf_content`: the returned boolean,
whether the document was opened, whether `doc.save(output_pdf_path, ...)` ran,
whether `shutil.copy(input, output)` ran, and the redaction rectangles added
on each page. -/
structure RedactOutcome where
  success : Bool
  opened : Bool
  savedRedacted : Bool
  copiedOriginal : Bool
  pageRects : List (List PdfRect)
deriving Repr

/-- `redact_pdf_content(input, output, words_and_patterns, case_sensitive)`:
fail fast when the input path does not exist; otherwise prepare the search
patterns, process every page, and either save the redacted document (when at
least one redaction was added) or copy the original unchanged; both branches
return success. -/
def redact_pdf_content (inputExists : Bool) (pages : List PageData)
    (entries : List RedactEntry) (case_sensitive : Bool) : RedactOutcome :=
  if !inputExists then
    { success := false, opened := false, savedRedacted := false,
      copiedOriginal := false, pageRects := [] }
  else
    let patterns := preparePatterns case_sensitive entries
    let results := pages.map (processPage patterns)
    let total : Nat := (results.map (·.2)).sum
    if total > 0 then
      { success := true, opened := true, savedRedacted := true,
        copiedOriginal := false, pageRects := results.map (·.1) }
    else
      { success := true, opened := true, savedRedacted := false,
        copiedOriginal := true, pageRects := results.map (·.1) }

/-! ## OCR text extraction: `extract_text_from_pdf` -/

/-- A rendered pixmap: its channel count `pix.n` and the outcome of turning
it into an image and running Tesseract on it (`Image.frombytes` plus
`pytesseract.image_to_string`, either of which may raise). -/
structure PdfPixmap where
  n : Nat
  ocrText : Except Unit String

/-- One page of the opened document: `page.get_pixmap` may raise, otherwise
it yields a pixmap. -/
structure OcrPage where
  pixmap : Except Unit PdfPixmap

/-- Does processing this page raise an exception?  Rendering may raise, and
OCR may raise — but only when the channel count is supported, since an
unsupported count skips the page before OCR. -/
def pageRaises (pg : OcrPage) : Bool :=
  match pg.pixmap with
  | .error _ => true
  | .ok pix =>
    (pix.n == 1 || pix.n == 3 || pix.n == 4) &&
    (match pix.ocrText with | .error _ => true | .ok _ => false)

/-- The page loop of `extract_text_from_pdf`: accumulate each supported
page's OCR text followed by a newline, skip pages with unsupported channel
counts, and return the empty string as soon as anything raises. -/
def extractLoop (acc : String) : List OcrPage → String
  | [] => acc
  | pg :: rest =>
    match pg.pixmap with
    | .error _ => ""
    | .ok pix =>
      if pix.n == 1 || pix.n == 3 || pix.n == 4 then
        match pix.ocrText with
        | .error _ => ""
        | .ok t => extractLoop (acc ++ t ++ "\n") rest
      else
        extractLoop acc rest

/-- `extract_text_from_pdf(pdf_path)`: opening the document may itself raise
(empty result); otherwise run the page loop starting from the empty string. -/
def extract_text_from_pdf (openResult : Except Unit (List OcrPage)) : String :=
  match openResult with
  | .error _ => ""
  | .ok pages => extractLoop "" pages

/-! ## Workflow driver: `process_zip_file_workflow` -/

/-- The ZIP input as the driver observes it: does the path exist, does
`zipfile.ZipFile` accept it, and what member names does it list. -/
structure ZipInputData where
  pathExists : Bool
  validZip : Bool
  members : List String

/-- The outcomes of the per-file library steps for one PDF: metadata
removal, redaction, and the text the OCR extraction returns. -/
structure FileSteps where
  metadataOk : Bool
  redactOk : Bool
  extractedText : String

/-- `member.lower().endswith(".pdf")`. -/
def isPdfMember (m : String) : Bool :=
  ".pdf".toList.isSuffixOf (m.toList.map Char.toLower)

/-- The `.pdf` members of the archive, in listing order. -/
def pdfMembers (z : ZipInputData) : List String := z.members.filter isPdfMember

/-- `os.path.basename`: the part after the last slash. -/
def baseNameOf (l : List Char) : List Char :=
  (l.reverse.takeWhile (fun c => c != '/')).reverse

/-- `os.path.splitext(...)[0]`: drop the extension after the last dot, when
there is one. -/
def stemOf (l : List Char) : List Char :=
  if l.contains '.' then ((l.reverse.dropWhile (fun c => c != '.')).drop 1).reverse else l

/-- The name of the text file written for a member:
`splitext(basename(member))[0] + ".txt"`. -/
def txtNameOf (m : String) : String :=
  String.mk (stemOf (baseNameOf m.toList) ++ ".txt".toList)

/-- The per-file loop of the driver: a failed metadata removal, a failed
redaction, or an empty extraction result each skip the file (`continue`);
otherwise the cleaned text is written and the file's text name is produced. -/
def fileLoop (steps : String → FileSteps) : List String → List String
  | [] => []
  | m :: rest =>
    let st := steps m
    if !st.metadataOk then fileLoop steps rest
    else if !st.redactOk then fileLoop steps rest
    else if st.extractedText == "" then fileLoop steps rest
    else txtNameOf m :: fileLoop steps rest

/-- `process_zip_file_workflow(zip_file_path, output_base_dir)`: fail when the
archive path does not exist, when the file is not a valid ZIP, or when it
contains no `.pdf` member; otherwise run the per-file loop and report success.
Returns the overall flag and the list of text files written. -/
def process_zip_file_workflow (z : ZipInputData) (steps : String → FileSteps) :
    Bool × List String :=
  if !z.pathExists then (false, [])
  else if !z.validZip then (false, [])
  else
    let pdfs := pdfMembers z
    if pdfs.isEmpty then (false, [])
    else (true, fileLoop steps pdfs)

/-! ## Helper lemmas -/

/-- The per-file loop is a `filterMap`: each member independently either
yields its text-file name (all steps succeeded) or nothing. -/
theorem fileLoop_eq_filterMap (steps : String → FileSteps) (ms : List String) :
    fileLoop steps ms = ms.filterMap (fun m =>
      if (steps m).metadataOk && (steps m).redactOk && !((steps m).extractedText == "")
      then some (txtNameOf m) else none) := by
  induction ms with
  | nil => rfl
  | cons m rest ih =>
    simp only [fileLoop, List.filterMap_cons]
    by_cases h1 : (steps m).metadataOk
    · by_cases h2 : (steps m).redactOk
      · by_cases h3 : (steps m).extractedText == ""
        · simp [h1, h2, h3, ih]
        · simp [h1, h2, h3, ih]
      · simp [h1, h2, ih]
    · simp [h1, ih]

/-- The pattern-preparation loop is a `filterMap` of the per-entry body. -/
theorem preparePatterns_eq_filterMap (cs : Bool) (items : List RedactEntry) :
    preparePatterns cs items = items.filterMap (prepareOne cs) := by
  suffices h : ∀ (its : List RedactEntry) (acc : List String),
      its.foldl (fun acc item =>
        match prepareOne cs item with
        | some p => acc ++ [p]
        | none => acc) acc = acc ++ its.filterMap (prepareOne cs) by
    simpa using h items []
  intro its
  induction its with
  | nil => intro acc; simp
  | cons e rest ih =>
    intro acc
    cases h : prepareOne cs e <;> simp [List.foldl_cons, h, ih, List.filterMap_cons]

/-! ## Claims -/

/-- C10: when the input PDF path does not exist, `redact_pdf_content` returns
`False` without opening the document, and neither saves a redacted output nor
copies the original — the output path is untouched. -/
theorem claim10_missing_input (pages : List PageData) (entries : List RedactEntry)
    (cs : Bool) :
    (redact_pdf_content false pages entries cs).success = false ∧
    (redact_pdf_content false pages entries cs).opened = false ∧
    (redact_pdf_content false pages entries cs).savedRedacted = false ∧
    (redact_pdf_content false pages entries cs).copiedOriginal = false := by
  simp [redact_pdf_content]

/-- C2 (code bug): on the input `"A\nCopyright © 2020\nB\nC"` the source's
`remove_undesired_patterns` returns `""`, not `"C"` as the claim and the
function's own docstring and comment require: the in-branch `i += 2` together
with the loop's unconditional `i += 1` advances by three, so the line `"C"`
is also discarded. -/
theorem claim2_marker_eval :
    remove_undesired_patterns "A\nCopyright © 2020\nB\nC".toList = [] := by
  decide

/-- C4: the workflow fails exactly when the archive path is missing, the file
is not a valid ZIP, or no `.pdf` member exists; per-file step failures only
suppress that file's text output while the run continues and still succeeds,
and a failed run writes no text files. -/
theorem claim4_workflow (z : ZipInputData) (steps : String → FileSteps) :
    (process_zip_file_workflow z steps).1 =
      (z.pathExists && z.validZip && !(pdfMembers z).isEmpty) ∧
    (process_zip_file_workflow z steps).2 =
      (if z.pathExists && z.validZip then
        (pdfMembers z).filterMap (fun m =>
          if (steps m).metadataOk && (steps m).redactOk && !((steps m).extractedText == "")
          then some (txtNameOf m) else none)
       else []) := by
  unfold process_zip_file_workflow
  by_cases h1 : z.pathExists
  · by_cases h2 : z.validZip
    · by_cases h3 : (pdfMembers z).isEmpty
      · have : pdfMembers z = [] := by simpa [List.isEmpty_iff] using h3
        simp [h1, h2, h3, this]
      · simp [h1, h2, h3, fileLoop_eq_filterMap]
    · simp [h1, h2]
  · simp [h1]

/-- C9: an entry that is neither a string nor a compiled pattern contributes
no search pattern (it is skipped without aborting), the generated list is the
order-preserving `filterMap` of the entries, and it distributes over
concatenation — so duplicates are kept, nothing is de-duplicated. -/
theorem claim9_invalid_entries (cs : Bool) (as bs : List RedactEntry) :
    preparePatterns cs (as ++ RedactEntry.invalid :: bs) = preparePatterns cs (as ++ bs) ∧
    preparePatterns cs (as ++ bs) = preparePatterns cs as ++ preparePatterns cs bs ∧
    preparePatterns cs as = as.filterMap (prepareOne cs) ∧
    prepareOne cs RedactEntry.invalid = none := by
  refine ⟨?_, ?_, preparePatterns_eq_filterMap cs as, rfl⟩ <;>
    simp [preparePatterns_eq_filterMap, List.filterMap_append, List.filterMap_cons, prepareOne]

/-- A page on which no pattern matched still contributes the header and the
footer redactions: its result is `([header, footer], 2)`. -/
theorem processPage_of_no_hits (patterns : List String) (pg : PageData)
    (h : collectedRects pg patterns = []) :
    processPage patterns pg = ([headerRect pg.width, footerRect pg.width pg.height], 2) := by
  unfold processPage
  rw [h]
  simp

/-- C1 (counterexample): a one-page document with no pattern match anywhere is
*not* copied unmodified — the unconditional header/footer redactions make
`total_redactions = 2 > 0`, so the redacted document is saved instead (the
call still returns success). -/
theorem claim1_counterexample :
    (redact_pdf_content true [⟨612, 792, fun _ => []⟩] [] false).copiedOriginal = false ∧
    (redact_pdf_content true [⟨612, 792, fun _ => []⟩] [] false).savedRedacted = true ∧
    (redact_pdf_content true [⟨612, 792, fun _ => []⟩] [] false).success = true := by
  have h : collectedRects ⟨612, 792, fun _ => []⟩ (preparePatterns false []) = [] := rfl
  have hp := processPage_of_no_hits (preparePatterns false []) ⟨612, 792, fun _ => []⟩ h
  refine ⟨?_, ?_, ?_⟩ <;> simp [redact_pdf_content, hp]

/-- C1 (amended): when no redaction pattern matches on any page, the call
returns success, but the input is copied unmodified to the output path only
when the document has no pages (so that `total_redactions = 0`); a document
with at least one page gets the redacted version saved instead, because every
page unconditionally receives the two header/footer redactions. -/
theorem claim1_amended (pages : List PageData) (entries : List RedactEntry) (cs : Bool)
    (h : ∀ pg ∈ pages, collectedRects pg (preparePatterns cs entries) = []) :
    (redact_pdf_content true pages entries cs).success = true ∧
    ((redact_pdf_content true pages entries cs).copiedOriginal = true ↔ pages = []) ∧
    ((redact_pdf_content true pages entries cs).savedRedacted = true ↔ pages ≠ []) := by
  cases pages with
  | nil => simp [redact_pdf_content]
  | cons p ps =>
    have hp2 : (processPage (preparePatterns cs entries) p).2 = 2 := by
      rw [processPage_of_no_hits _ p (h p (by simp))]
    have hcond : 0 < (processPage (preparePatterns cs entries) p).2 ∨
        0 < (List.map ((fun x => x.2) ∘ processPage (preparePatterns cs entries)) ps).sum := by
      left; omega
    simp [redact_pdf_content, hcond]

/-- Witness for C1 (amended) at a concrete one-page document with no matches:
the hypothesis holds, the call succeeds, and the copy/save dichotomy comes out
as save. -/
theorem claim1_witness :
    (∀ pg ∈ [(⟨612, 792, fun _ => []⟩ : PageData)],
      collectedRects pg (preparePatterns false []) = []) ∧
    ((redact_pdf_content true [⟨612, 792, fun _ => []⟩] [] false).success = true ∧
     ((redact_pdf_content true [⟨612, 792, fun _ => []⟩] [] false).copiedOriginal = true ↔
       [(⟨612, 792, fun _ => []⟩ : PageData)] = []) ∧
     ((redact_pdf_content true [⟨612, 792, fun _ => []⟩] [] false).savedRedacted = true ↔
       [(⟨612, 792, fun _ => []⟩ : PageData)] ≠ [])) :=
  ⟨fun _ _ => rfl, claim1_amended [⟨612, 792, fun _ => []⟩] [] false (fun _ _ => rfl)⟩

/-- The page loop of the extractor returns the empty string whenever any page
in the remaining list raises, no matter what has been accumulated so far. -/
theorem extractLoop_of_raises (pre : List OcrPage) (pg : OcrPage) (post : List OcrPage)
    (h : pageRaises pg = true) :
    ∀ acc, extractLoop acc (pre ++ pg :: post) = "" := by
  induction pre with
  | nil =>
    intro acc
    unfold pageRaises at h
    cases hpix : pg.pixmap with
    | error e => simp [extractLoop, hpix]
    | ok pix =>
      rw [hpix] at h
      simp only [Bool.and_eq_true] at h
      cases hocr : pix.ocrText with
      | error e => simp [extractLoop, hpix, h.1, hocr]
      | ok t => rw [hocr] at h; simp at h
  | cons q qs ih =>
    intro acc
    cases hpix : q.pixmap with
    | error e => simp [extractLoop, hpix]
    | ok pix =>
      by_cases hn : (pix.n == 1 || pix.n == 3 || pix.n == 4) = true
      · cases hocr : pix.ocrText with
        | error e => simp [extractLoop, hpix, hn, hocr]
        | ok t => simp [extractLoop, hpix, hn, hocr, ih]
      · simp only [Bool.not_eq_true] at hn
        simp [extractLoop, hpix, hn, ih]

/-- The per-file loop distributes over list concatenation. -/
theorem fileLoop_append (steps : String → FileSteps) (a b : List String) :
    fileLoop steps (a ++ b) = fileLoop steps a ++ fileLoop steps b := by
  simp [fileLoop_eq_filterMap, List.filterMap_append]

/-- C8: if any page of the document raises during extraction, the whole
result of `extract_text_from_pdf` is the empty string — text already
accumulated from earlier pages is discarded — and the caller skips a file
whose extraction result is empty, producing no text output for it while
processing the surrounding files exactly as before. -/
theorem claim8_extract_error (pre post : List OcrPage) (pg : OcrPage)
    (h : pageRaises pg = true) :
    extract_text_from_pdf (.ok (pre ++ pg :: post)) = "" ∧
    ∀ (steps : String → FileSteps) (m : String) (a b : List String),
      (steps m).extractedText = extract_text_from_pdf (.ok (pre ++ pg :: post)) →
      fileLoop steps (a ++ m :: b) = fileLoop steps a ++ fileLoop steps b := by
  have hext : extract_text_from_pdf (.ok (pre ++ pg :: post)) = "" :=
    extractLoop_of_raises pre pg post h ""
  refine ⟨hext, fun steps m a b hm => ?_⟩
  rw [hext] at hm
  have hskip : fileLoop steps [m] = [] := by
    simp [fileLoop_eq_filterMap, hm]
  calc fileLoop steps (a ++ m :: b)
      = fileLoop steps a ++ (fileLoop steps [m] ++ fileLoop steps b) := by
        rw [fileLoop_append]
        have : (m :: b) = [m] ++ b := rfl
        rw [this, fileLoop_append]
    _ = fileLoop steps a ++ fileLoop steps b := by rw [hskip]; simp

/-- Witness for C8: a document whose first page produced text and whose
second page raises during OCR extracts to the empty string, and a workflow
step function reporting that empty extraction for `"a.pdf"` skips that file
while the neighbouring file is processed as before. -/
theorem claim8_witness :
    pageRaises ⟨.ok ⟨3, .error ()⟩⟩ = true ∧
    extract_text_from_pdf (.ok [⟨.ok ⟨3, .ok "hello"⟩⟩, ⟨.ok ⟨3, .error ()⟩⟩]) = "" ∧
    fileLoop (fun m => if m == "b.pdf" then ⟨true, true, "text"⟩ else ⟨true, true, ""⟩)
        (["b.pdf"] ++ "a.pdf" :: []) =
      fileLoop (fun m => if m == "b.pdf" then ⟨true, true, "text"⟩ else ⟨true, true, ""⟩)
        ["b.pdf"] ++
      fileLoop (fun m => if m == "b.pdf" then ⟨true, true, "text"⟩ else ⟨true, true, ""⟩) [] :=
  ⟨rfl,
   (claim8_extract_error [⟨.ok ⟨3, .ok "hello"⟩⟩] [] ⟨.ok ⟨3, .error ()⟩⟩ rfl).1,
   (claim8_extract_error [⟨.ok ⟨3, .ok "hello"⟩⟩] [] ⟨.ok ⟨3, .error ()⟩⟩ rfl).2
     (fun m => if m == "b.pdf" then ⟨true, true, "text"⟩ else ⟨true, true, ""⟩)
     "a.pdf" ["b.pdf"] [] rfl⟩

/-- Unescaping inverts escaping: reading the `re.escape` of a character list
as a regex literal yields the original list. -/
theorem unescapeLit_flatMap (l : List Char) :
    unescapeLit (l.flatMap fun c => if isRegexSpecial c then ['\\', c] else [c]) = some l := by
  induction l with
  | nil => rfl
  | cons c cs ih =>
    by_cases hc : isRegexSpecial c
    · simp [hc, unescapeLit, ih]
    · have hne : c ≠ '\\' := by
        intro h
        rw [h] at hc
        exact hc (by decide)
      have hb : (c == '\\') = false := beq_eq_false_iff_ne.mpr hne
      rw [unescapeLit.eq_def]
      simp [hb, hc, ih]

/-- Characters of the escape of a string: `re.escape` output as a list. -/
theorem toList_reEscape (s : String) :
    (reEscape s).toList = s.toList.flatMap fun c => if isRegexSpecial c then ['\\', c] else [c] :=
  rfl

/-- A string whose first character is not `(` carries no inline flag group. -/
theorem hasInlineI_of_head_ne {x : Char} (xs : List Char) (hx : x ≠ '(') :
    hasInlineI (String.mk (x :: xs)) = false := by
  have h2 : (String.mk (x :: xs)).toList = x :: xs := rfl
  unfold hasInlineI
  rw [h2]
  have hb : (List.take 2 (x :: xs) == ['(', '?']) = false := by
    rw [beq_eq_false_iff_ne]
    intro h
    have := List.head_eq_of_cons_eq (by simpa [List.take_succ_cons] using h)
    exact hx this
  rw [hb, Bool.false_and]

/-- The escape of a literal never begins with an inline flag group. -/
theorem hasInlineI_reEscape (s : String) : hasInlineI (reEscape s) = false := by
  have hrepr : reEscape s = String.mk (s.toList.flatMap fun c =>
      if isRegexSpecial c then ['\\', c] else [c]) := rfl
  rw [hrepr]
  cases hl : s.toList with
  | nil => rfl
  | cons c cs =>
    by_cases hc : isRegexSpecial c
    · simp only [List.flatMap_cons, hc, if_true]
      exact hasInlineI_of_head_ne _ (by decide)
    · simp only [List.flatMap_cons, hc, if_false]
      have hne : c ≠ '(' := by
        intro h
        rw [h] at hc
        exact hc (by decide)
      exact hasInlineI_of_head_ne _ hne

/-- Emitting with no flags set is the identity. -/
theorem emitPattern_none (p : String) : emitPattern {} p = p := rfl

/-- Emitting with only `IGNORECASE` prefixes the `(?i)` group. -/
theorem emitPattern_i (p : String) : emitPattern { ignorecase := true } p = "(?i)" ++ p := rfl

/-- C6: a literal entry is regex-escaped (so the generated pattern denotes
exactly the literal text: unescaping it returns the original characters), and
its case-sensitivity follows the global flag — `(?i)` is prefixed exactly
when the call is case-insensitive, and the pattern carries an inline `i` flag
if and only if the global flag requested case-insensitivity. -/
theorem claim6_literal_entries (cs : Bool) (s : String) :
    prepareOne cs (.str s) = some (if cs then reEscape s else "(?i)" ++ reEscape s) ∧
    unescapeLit (reEscape s).toList = some s.toList ∧
    hasInlineI ((prepareOne cs (RedactEntry.str s)).getD "") = !cs := by
  refine ⟨?_, ?_, ?_⟩
  · cases cs <;> simp [prepareOne, emitPattern_none, emitPattern_i]
  · rw [toList_reEscape]
    exact unescapeLit_flatMap s.toList
  · cases cs
    · have h : prepareOne false (RedactEntry.str s) = some ("(?i)" ++ reEscape s) := by
        simp [prepareOne, emitPattern_i]
      rw [h]
      have hg : ((some ("(?i)" ++ reEscape s)).getD "") = "(?i)" ++ reEscape s := rfl
      rw [hg]
      have hdata : ("(?i)" ++ reEscape s).toList = '(' :: '?' :: 'i' :: ')' :: (reEscape s).toList :=
        String.data_append "(?i)" (reEscape s)
      unfold hasInlineI
      rw [hdata]
      simp [List.takeWhile]
    · have h : prepareOne true (RedactEntry.str s) = some (reEscape s) := by
        simp [prepareOne, emitPattern_none]
      rw [h]
      have hg : ((some (reEscape s)).getD "") = reEscape s := rfl
      rw [hg]
      exact hasInlineI_reEscape s

/-- Scanning for the closing parenthesis of the flag group stops exactly at
the inserted `)` when the flag letters themselves contain none. -/
theorem takeWhile_append_rparen (gs rest : List Char)
    (hg : ∀ c ∈ gs, (c != ')') = true) :
    List.takeWhile (fun c => c != ')') (gs ++ ')' :: rest) = gs := by
  induction gs with
  | nil => simp [List.takeWhile]
  | cons g gt ih =>
    have hgh := hg g (by simp)
    simp only [List.cons_append, List.takeWhile_cons, hgh, if_true]
    rw [ih (fun c hc => hg c (by simp [hc]))]

/-- The inline-flag test on a string of the shape `"(?" ++ group ++ ")" ++ p`
reads off exactly whether the group letters contain `i`. -/
theorem hasInlineI_group (gs : List Char) (p : String)
    (hg : ∀ c ∈ gs, (c != ')') = true) :
    hasInlineI (String.mk ('(' :: '?' :: gs ++ ')' :: p.toList)) = gs.contains 'i' := by
  unfold hasInlineI
  have hl : (String.mk ('(' :: '?' :: gs ++ ')' :: p.toList)).toList =
      '(' :: '?' :: gs ++ ')' :: p.toList := rfl
  rw [hl]
  have ht : List.take 2 ('(' :: '?' :: gs ++ ')' :: p.toList) = ['(', '?'] := rfl
  have hd : List.drop 2 ('(' :: '?' :: gs ++ ')' :: p.toList) = gs ++ ')' :: p.toList := rfl
  rw [ht, hd, takeWhile_append_rparen gs p.toList hg]
  simp

/-- A nonempty flag string puts the pattern into group shape. -/
theorem emitPattern_data (f : RegexFlags) (p : String)
    (h : (flagStr f).isEmpty = false) :
    emitPattern f p = String.mk ('(' :: '?' :: (flagStr f).toList ++ ')' :: p.toList) := by
  unfold emitPattern
  rw [h]
  simp only [Bool.false_eq_true, if_false]
  apply String.ext
  simp [String.data_append]

/-- The flag letters never contain a closing parenthesis. -/
theorem flagStr_no_rparen (f : RegexFlags) : ∀ c ∈ (flagStr f).toList, (c != ')') = true := by
  rcases f with ⟨i, s, m, u⟩
  cases i <;> cases s <;> cases m <;> cases u <;> decide

/-- The flag letters contain `i` exactly when `IGNORECASE` is set. -/
theorem flagStr_contains_i (f : RegexFlags) :
    ((flagStr f).toList.contains 'i') = f.ignorecase := by
  rcases f with ⟨i, s, m, u⟩
  cases i <;> cases s <;> cases m <;> cases u <;> decide

/-- A flag set with `UNICODE` produces a nonempty flag string. -/
theorem flagStr_nonempty_of_unicode (f : RegexFlags) (h : f.unicode = true) :
    (flagStr f).isEmpty = false := by
  rcases f with ⟨i, s, m, u⟩
  cases i <;> cases s <;> cases m <;> cases u <;> simp_all <;> decide

/-- With a nonempty flag string the emitted pattern carries an inline `i`
exactly when `IGNORECASE` is among the flags. -/
theorem hasInlineI_emitPattern (f : RegexFlags) (p : String)
    (h : (flagStr f).isEmpty = false) :
    hasInlineI (emitPattern f p) = f.ignorecase := by
  rw [emitPattern_data f p h, hasInlineI_group _ _ (flagStr_no_rparen f),
    flagStr_contains_i f]

/-- C3 (counterexample): with `case_sensitive = True`, a compiled entry
carrying `IGNORECASE` (and, as always in Python, `UNICODE`) produces the
pattern `"(?u)..."` with no inline `i` flag — the entry's case-insensitivity
is narrowed away rather than widened. -/
theorem claim3_counterexample :
    preparePatterns true [.pat "AUTHORS:.*?(?:\\n|$)" ⟨true, false, false, true⟩] =
      ["(?u)AUTHORS:.*?(?:\\n|$)"] ∧
    hasInlineI "(?u)AUTHORS:.*?(?:\\n|$)" = false := by
  constructor
  · decide
  · decide

/-- C3 (amended): entry-level flags never override the global flag for
case-sensitivity in either direction — for well-formed entries (compiled
`str` patterns always carry `UNICODE` in Python), every generated pattern
carries the inline `i` flag exactly when the global flag requested
case-insensitive matching; an entry's own `IGNORECASE` is dropped whenever
`case_sensitive` is true. -/
theorem claim3_amended (cs : Bool) (items : List RedactEntry)
    (h : ∀ e ∈ items, entryWellFormed e = true) :
    ∀ p ∈ preparePatterns cs items, hasInlineI p = !cs := by
  intro p hp
  rw [preparePatterns_eq_filterMap, List.mem_filterMap] at hp
  obtain ⟨e, he, hpe⟩ := hp
  cases e with
  | invalid => simp [prepareOne] at hpe
  | str s =>
    cases cs
    · have hval : prepareOne false (RedactEntry.str s) = some ("(?i)" ++ reEscape s) := by
        simp [prepareOne, emitPattern_i]
      rw [hval] at hpe
      obtain rfl : "(?i)" ++ reEscape s = p := Option.some.inj hpe
      have hform : ("(?i)" ++ reEscape s) = emitPattern { ignorecase := true } (reEscape s) :=
        (emitPattern_i (reEscape s)).symm
      rw [hform, hasInlineI_emitPattern _ _ (by decide)]
      rfl
    · have hval : prepareOne true (RedactEntry.str s) = some (reEscape s) := by
        simp [prepareOne, emitPattern_none]
      rw [hval] at hpe
      obtain rfl : reEscape s = p := Option.some.inj hpe
      rw [hasInlineI_reEscape]
      decide
  | pat q fl =>
    have hwf : fl.unicode = true := by simpa [entryWellFormed] using h _ he
    cases cs
    · have hred : prepareOne false (RedactEntry.pat q fl) =
          some (emitPattern ⟨true, fl.dotall, fl.multiline, fl.unicode⟩ q) := by
        cases hfi : fl.ignorecase <;> simp [prepareOne, hfi]
      rw [hred] at hpe
      obtain rfl := Option.some.inj hpe
      rw [hasInlineI_emitPattern _ _ (flagStr_nonempty_of_unicode _ (by simpa using hwf))]
      rfl
    · have hred : prepareOne true (RedactEntry.pat q fl) =
          some (emitPattern ⟨false, fl.dotall, fl.multiline, fl.unicode⟩ q) := by
        simp [prepareOne]
      rw [hred] at hpe
      obtain rfl := Option.some.inj hpe
      rw [hasInlineI_emitPattern _ _ (flagStr_nonempty_of_unicode _ (by simpa using hwf))]
      rfl

/-- Witness for C3 (amended) at the module's own configuration: every entry of
`REDACTION_PATTERNS` is well-formed, and with the case-insensitive global flag
every generated pattern carries the inline `i` flag. -/
theorem claim3_witness :
    (∀ e ∈ REDACTION_PATTERNS, entryWellFormed e = true) ∧
    (∀ p ∈ preparePatterns false REDACTION_PATTERNS, hasInlineI p = !false) :=
  ⟨by decide, claim3_amended false REDACTION_PATTERNS (by decide)⟩

/-- The page loop's fold is append-and-count of the kept rectangles. -/
theorem processPage_foldl (hdr ftr : PdfRect) (l : List PdfRect) :
    ∀ (acc : List PdfRect) (n : Nat),
    l.foldl (fun acc r =>
      if !(hdr.intersectsB r) && !(ftr.intersectsB r) then (acc.1 ++ [r], acc.2 + 1) else acc)
      (acc, n) =
    (acc ++ l.filter (fun r => !(hdr.intersectsB r) && !(ftr.intersectsB r)),
     n + (l.filter (fun r => !(hdr.intersectsB r) && !(ftr.intersectsB r))).length) := by
  induction l with
  | nil => intro acc n; simp
  | cons r rest ih =>
    intro acc n
    by_cases hr : (!(hdr.intersectsB r) && !(ftr.intersectsB r)) = true
    · rw [List.foldl_cons]
      simp only [hr, if_true]
      rw [ih]
      simp [List.filter_cons, hr, List.append_assoc]
      omega
    · rw [List.foldl_cons]
      simp only [Bool.not_eq_true] at hr
      simp only [hr, Bool.false_eq_true, if_false]
      rw [ih]
      simp [List.filter_cons, hr]

/-- The `(y0, x0)` sort key is transitive. -/
theorem rectLe_trans (a b c : PdfRect) (hab : rectLe a b = true) (hbc : rectLe b c = true) :
    rectLe a c = true := by
  simp only [rectLe, Bool.or_eq_true, Bool.and_eq_true, decide_eq_true_eq] at *
  rcases hab with h1 | ⟨h1, h2⟩ <;> rcases hbc with h3 | ⟨h3, h4⟩
  · exact Or.inl (lt_trans h1 h3)
  · exact Or.inl (by rwa [← h3])
  · exact Or.inl (by rwa [h1])
  · exact Or.inr ⟨h1.trans h3, le_trans h2 h4⟩

/-- The `(y0, x0)` sort key is total. -/
theorem rectLe_total (a b : PdfRect) : (rectLe a b || rectLe b a) = true := by
  simp only [rectLe, Bool.or_eq_true, Bool.and_eq_true, decide_eq_true_eq]
  rcases lt_trichotomy a.y0 b.y0 with h | h | h
  · exact Or.inl (Or.inl h)
  · rcases le_total a.x0 b.x0 with hx | hx
    · exact Or.inl (Or.inr ⟨h, hx⟩)
    · exact Or.inr (Or.inr ⟨h.symm, hx⟩)
  · exact Or.inr (Or.inl h)

/-- C5: on each page the collected match rectangles are sorted by
`(y0, x0)`; every match rectangle intersecting the header or the footer
region is discarded and gets no redaction of its own; the page's redactions
are exactly the header, the footer, and the surviving matches in sorted
order, and the count is two plus the number of survivors. -/
theorem claim5_page_processing (patterns : List String) (pg : PageData) :
    (processPage patterns pg).1 =
      headerRect pg.width :: footerRect pg.width pg.height ::
        ((collectedRects pg patterns).mergeSort rectLe).filter
          (fun r => !((headerRect pg.width).intersectsB r) &&
                    !((footerRect pg.width pg.height).intersectsB r)) ∧
    (processPage patterns pg).2 =
      2 + (((collectedRects pg patterns).mergeSort rectLe).filter
          (fun r => !((headerRect pg.width).intersectsB r) &&
                    !((footerRect pg.width pg.height).intersectsB r))).length ∧
    List.Pairwise (fun a b => rectLe a b = true)
      ((collectedRects pg patterns).mergeSort rectLe) ∧
    ∀ r, (r ∈ ((collectedRects pg patterns).mergeSort rectLe).filter
          (fun r => !((headerRect pg.width).intersectsB r) &&
                    !((footerRect pg.width pg.height).intersectsB r)) ↔
        (r ∈ collectedRects pg patterns ∧
         (headerRect pg.width).intersectsB r = false ∧
         (footerRect pg.width pg.height).intersectsB r = false)) := by
  have hfold := processPage_foldl (headerRect pg.width) (footerRect pg.width pg.height)
    ((collectedRects pg patterns).mergeSort rectLe)
    [headerRect pg.width, footerRect pg.width pg.height] 2
  refine ⟨?_, ?_, ?_, ?_⟩
  · unfold processPage
    rw [hfold]
    rfl
  · unfold processPage
    rw [hfold]
  · exact List.sorted_mergeSort rectLe_trans rectLe_total (collectedRects pg patterns)
  · intro r
    rw [List.mem_filter, List.mem_mergeSort]
    simp [Bool.and_eq_true, Bool.not_eq_true', and_assoc]

/-- A list matched by the token classes has exactly eight characters. -/
theorem udClassMatch_length {l : List Char} (h : udClassMatch l = true) : l.length = 8 := by
  unfold udClassMatch at h
  split at h
  · simp_all
  · exact absurd h (by simp)

/-- A character from a two-letter class of word characters is a word
character. -/
theorem charClass2_word {c lo hi : Char} (hlo : isWordChar lo = true)
    (hhi : isWordChar hi = true) (h : charClass2 c lo hi = true) : isWordChar c = true := by
  simp only [charClass2, Bool.or_eq_true, beq_iff_eq] at h
  rcases h with rfl | rfl <;> assumption

/-- Every character of a token-class match is a word character. -/
theorem udClassMatch_word {l : List Char} (h : udClassMatch l = true) :
    ∀ c ∈ l, isWordChar c = true := by
  unfold udClassMatch at h
  split at h
  case h_1 c1 c2 c3 c4 c5 c6 c7 c8 =>
    simp only [Bool.and_eq_true] at h
    obtain ⟨⟨⟨⟨⟨⟨⟨h1, h2⟩, h3⟩, h4⟩, h5⟩, h6⟩, h7⟩, h8⟩ := h
    intro c hc
    simp only [List.mem_cons, List.not_mem_nil, or_false] at hc
    rcases hc with rfl | rfl | rfl | rfl | rfl | rfl | rfl | rfl
    · exact charClass2_word (by decide) (by decide) h1
    · exact charClass2_word (by decide) (by decide) h2
    · exact charClass2_word (by decide) (by decide) h3
    · exact charClass2_word (by decide) (by decide) h4
    · exact charClass2_word (by decide) (by decide) h5
    · exact charClass2_word (by decide) (by decide) h6
    · exact charClass2_word (by decide) (by decide) h7
    · exact charClass2_word (by decide) (by decide) h8
  · exact absurd h (by simp)

/-- Unfolding equation of the scan on a cons cell with remaining fuel. -/
theorem subScanF_cons (fuel : Nat) (p : Bool) (c : Char) (cs : List Char) :
    subScanF (fuel + 1) p (c :: cs) =
      if !p && udClassMatch (List.take 8 (c :: cs)) && nextNonWord (List.drop 8 (c :: cs)) then
        subScanF fuel true (List.drop 8 (c :: cs))
      else c :: subScanF fuel (isWordChar c) cs := rfl

/-- Invariant form of the equivalence between the operational `re.sub` scan
and the declarative whole-word-removal: if the scan stands at position `k`
with the correct previous-character status and no whole-word occurrence
started before `k` reaches past `k`, the rest of the scan output is exactly
the uncovered characters from position `k` on. -/
theorem subScan_decl_aux :
    ∀ (fuel : Nat) (full : List Char) (k : Nat),
    full.length - k ≤ fuel →
    (∀ j, j < k → udMatchAt full j = true → j + 8 ≤ k) →
    subScanF fuel (prevWordAt full k) (List.drop k full) =
      (List.range' k (full.length - k)).filterMap
        (fun i => if udCovered full i then none else full[i]?) := by
  intro fuel
  induction fuel with
  | zero =>
    intro full k hf _
    have hk : full.length ≤ k := by omega
    have h0 : full.length - k = 0 := by omega
    rw [List.drop_eq_nil_of_le hk, h0]
    rfl
  | succ fuel ih =>
    intro full k hf hinv
    by_cases hk : full.length ≤ k
    · have h0 : full.length - k = 0 := by omega
      rw [List.drop_eq_nil_of_le hk, h0]
      rfl
    · push_neg at hk
      have hdrop : List.drop k full = full[k] :: List.drop (k + 1) full :=
        List.drop_eq_getElem_cons hk
      have hfac1 : (!(prevWordAt full k)) = (decide (k = 0) || !isWordOpt full[k - 1]?) := by
        cases k with
        | zero => simp [prevWordAt]
        | succ j => simp [prevWordAt]
      have hfac3 : List.drop 8 (List.drop k full) = List.drop (k + 8) full :=
        List.drop_drop 8 k full
      have hcond : (!(prevWordAt full k) &&
          udClassMatch (List.take 8 (List.drop k full)) &&
          nextNonWord (List.drop 8 (List.drop k full))) = udMatchAt full k := by
        rw [hfac1, hfac3]
        rfl
      rw [hdrop, subScanF_cons, ← hdrop, hcond]
      by_cases hm : udMatchAt full k = true
      · rw [if_pos hm]
        have hmm := hm
        unfold udMatchAt at hmm
        simp only [Bool.and_eq_true] at hmm
        obtain ⟨⟨hb1, hb2⟩, hb3⟩ := hmm
        have hlen8 : (List.take 8 (List.drop k full)).length = 8 := udClassMatch_length hb2
        have hk8 : k + 8 ≤ full.length := by
          rw [List.length_take, List.length_drop] at hlen8; omega
        have hw7 : isWordChar full[k + 7] = true := by
          have hmem : full[k + 7] ∈ List.take 8 (List.drop k full) := by
            refine List.getElem?_mem
              (show (List.take 8 (List.drop k full))[7]? = some full[k + 7] from ?_)
            rw [List.getElem?_take_of_lt (by omega), List.getElem?_drop]
            exact List.getElem?_eq_getElem (by omega)
          exact udClassMatch_word hb2 _ hmem
        have hprev : prevWordAt full (k + 8) = true := by
          show isWordOpt full[k + 7]? = true
          rw [List.getElem?_eq_getElem (show k + 7 < full.length by omega)]
          simpa [isWordOpt] using hw7
        have hinv' : ∀ j, j < k + 8 → udMatchAt full j = true → j + 8 ≤ k + 8 := by
          intro j hj hmj
          rcases lt_trichotomy j k with hlt | heq | hgt
          · have := hinv j hlt hmj; omega
          · omega
          · exfalso
            unfold udMatchAt at hmj
            simp only [Bool.and_eq_true] at hmj
            obtain ⟨⟨hj1, _⟩, _⟩ := hmj
            have hj0 : j ≠ 0 := by omega
            have hjw : isWordOpt full[j - 1]? = true := by
              have hidx : j - 1 < full.length := by omega
              rw [List.getElem?_eq_getElem hidx]
              have hmem : full[j - 1] ∈ List.take 8 (List.drop k full) := by
                refine List.getElem?_mem
                  (show (List.take 8 (List.drop k full))[j - 1 - k]? = some full[j - 1] from ?_)
                rw [List.getElem?_take_of_lt (by omega), List.getElem?_drop]
                have harith : k + (j - 1 - k) = j - 1 := by omega
                rw [harith]
                exact List.getElem?_eq_getElem hidx
              simpa [isWordOpt] using udClassMatch_word hb2 _ hmem
            rw [hjw] at hj1
            simp [hj0] at hj1
        have hIH := ih full (k + 8) (by omega) hinv'
        rw [hprev] at hIH
        rw [hfac3, hIH]
        rw [show full.length - k = (full.length - (k + 8)) + 8 from by omega,
          ← List.range'_append_1, List.filterMap_append]
        have hnil : (List.range' k 8).filterMap
            (fun i => if udCovered full i then none else full[i]?) = [] := by
          rw [List.filterMap_eq_nil_iff]
          intro i hi
          have hik : k ≤ i ∧ i < k + 8 := by simpa using List.mem_range'_1.mp hi
          have hcov : udCovered full i = true := by
            unfold udCovered
            rw [List.any_eq_true]
            refine ⟨k, List.mem_range.mpr (by omega), ?_⟩
            simp [hm, hik.1, hik.2]
          simp [hcov]
        rw [hnil, List.nil_append]
      · rw [if_neg hm]
        have hmf : udMatchAt full k = false := by
          cases hval : udMatchAt full k
          · rfl
          · exact absurd hval hm
        have hprev1 : prevWordAt full (k + 1) = isWordChar full[k] := by
          show isWordOpt full[k]? = _
          rw [List.getElem?_eq_getElem hk]
          rfl
        have hinv' : ∀ j, j < k + 1 → udMatchAt full j = true → j + 8 ≤ k + 1 := by
          intro j hj hmj
          rcases Nat.lt_or_ge j k with hlt | hge
          · have := hinv j hlt hmj; omega
          · have hjk : j = k := by omega
            rw [hjk] at hmj
            exact absurd hmj hm
        have hIH := ih full (k + 1) (by omega) hinv'
        rw [hprev1] at hIH
        rw [hIH]
        rw [show full.length - k = (full.length - (k + 1)) + 1 from by omega,
          List.range'_succ]
        have hcov : udCovered full k = false := by
          unfold udCovered
          rw [List.any_eq_false]
          intro j hj hcontra
          simp only [Bool.and_eq_true, decide_eq_true_eq] at hcontra
          obtain ⟨⟨hmj, hjk⟩, hkj⟩ := hcontra
          rcases Nat.lt_or_ge j k with hlt | hge
          · have := hinv j hlt hmj; omega
          · have hjeq : j = k := by omega
            rw [hjeq] at hmj
            exact hm hmj
        have hfk : (if udCovered full k then none else full[k]?) = some full[k] := by
          rw [hcov]
          simp [List.getElem?_eq_getElem hk]
        simp only [List.filterMap_cons, hfk]

/-- The `re.sub` scan computes exactly the declarative whole-word removal. -/
theorem subUD_eq_spec (l : List Char) : subUD l = wholeWordStripSpec l := by
  have h := subScan_decl_aux l.length l 0 (by omega)
    (fun j hj _ => absurd hj (Nat.not_lt_zero j))
  unfold subUD wholeWordStripSpec
  simpa [List.range_eq_range', prevWordAt] using h

/-- C7: when the scan of `remove_undesired_patterns` examines a line that
does not match the copyright-year marker, it keeps the line, emitting it with
every whole-word occurrence of the token `uptodate` (any casing) replaced by
the empty string — occurrences embedded in longer words are untouched, as the
emitted line is exactly the characters not covered by a whole-word
occurrence. -/
theorem claim7_nonmarker_lines (l : List Char) (prev : Option (List Char))
    (out rest : List (List Char)) (h : markerB l = false) :
    rupGo prev out (l :: rest) = rupGo (some l) (out ++ [subUD l]) rest ∧
    subUD l = wholeWordStripSpec l := by
  constructor
  · rw [rupGo]
    simp [h]
  · exact subUD_eq_spec l

/-- Witness for C7 at a concrete line: `"see UpToDate and UpToDateX"` has no
marker, is kept with the whole-word token removed, and the embedded
`UpToDateX` survives. -/
theorem claim7_witness :
    markerB "see UpToDate and UpToDateX".toList = false ∧
    (rupGo none [] ["see UpToDate and UpToDateX".toList] =
      rupGo (some "see UpToDate and UpToDateX".toList)
        ([] ++ [subUD "see UpToDate and UpToDateX".toList]) [] ∧
     subUD "see UpToDate and UpToDateX".toList =
       wholeWordStripSpec "see UpToDate and UpToDateX".toList) :=
  ⟨by decide, claim7_nonmarker_lines "see UpToDate and UpToDateX".toList none [] [] (by decide)⟩

end Redaction
